import Mathlib

/-!
Shallow embedding of the basirah-project retrieval core:
`src/search_index.py` (`TafsirSearchEngine`), `src/main.py` (`ArabicTafsirRAG`),
`src/qdrant_utils.py` (point lookup) and `src/utils.py` (translation and
reflection caches).  Similarity scores and persisted vector entries are
modelled as rationals; vectors in the norm analysis as lists of reals.
-/

/-- A consolidated tafsir entry as built by `TafsirSearchEngine._build_index`
in `src/search_index.py`: the dict appended to `self.entries` (keys `text`,
`author`, `surah`, `ayah_range`, `surah_name_arabic`, `surah_name_english`,
`source_urls`). -/
structure Entry where
  text : String
  author : String
  surah : Nat
  ayahRange : List Nat
  surahNameArabic : String
  surahNameEnglish : String
  sourceUrls : List String
  deriving DecidableEq

/-- Default used to keep `entries[idx]` total; in the code every index produced
by `enumerate(sims)` is in range because `len(sims) = len(entries)` after a
build (the invariant stated in the spec). -/
def defaultEntry : Entry := ⟨"", "", 0, [], "", "", []⟩

/-- Python `str.lower()` on the author identifiers: the per-character
lowercase map (identical to `String.toLower`, but written over the character
data so the kernel can evaluate it on concrete strings). -/
def lowerStr (s : String) : String := ⟨s.data.map Char.toLower⟩

/-- The author-filter test of `TafsirSearchEngine.search`:
`if author and entry["author"].lower() != author.lower(): continue`.
Python truthiness: `None` and `""` disable the filter. -/
def authorPass (e : Entry) : Option String → Bool
  | none => true
  | some a => if a == "" then true else lowerStr e.author == lowerStr a

/-- The surah-filter test of `TafsirSearchEngine.search`:
`if surah and entry["surah"] != surah: continue`.
Python truthiness: `None` and `0` disable the filter. -/
def surahPass (e : Entry) : Option Nat → Bool
  | none => true
  | some s => if s == 0 then true else e.surah == s

/-- An entry survives both `continue` checks of the search loop. -/
def keepE (e : Entry) (aF : Option String) (sF : Option Nat) : Bool :=
  authorPass e aF && surahPass e sF

/-- `enumerate(sims)` starting at a given index. -/
def enumFrom : Nat → List ℚ → List (Nat × ℚ)
  | _, [] => []
  | n, s :: ss => (n, s) :: enumFrom (n + 1) ss

/-- One insertion step of a stable descending sort on `(index, score)` pairs:
the new element is placed before the first element whose score is not
strictly greater.  `foldr insertDesc []` therefore computes exactly the
(unique) stable descending-by-score ordering that Python's
`list.sort(key=lambda x: x[1], reverse=True)` produces. -/
def insertDesc (x : Nat × ℚ) : List (Nat × ℚ) → List (Nat × ℚ)
  | [] => [x]
  | y :: ys => if x.2 < y.2 then y :: insertDesc x ys else x :: y :: ys

/-- Stable sort of `(index, score)` pairs, descending by score; the model of
`indexed_scores.sort(key=lambda x: x[1], reverse=True)`. -/
def sortDesc (l : List (Nat × ℚ)) : List (Nat × ℚ) :=
  l.foldr insertDesc []

/-- A search hit of `TafsirSearchEngine.search`: the code returns
`{**entry, "score": float(score)}`; the positional index the pair came from
is kept alongside to state ordering properties. -/
structure SRes where
  idx : Nat
  score : ℚ
  entry : Entry
  deriving DecidableEq

/-- The intended ordering of ranked candidates: strictly higher score first,
equal scores in insertion (enumeration index) order. -/
def scoreIdxOrder (a b : Nat × ℚ) : Prop :=
  b.2 < a.2 ∨ (a.2 = b.2 ∧ a.1 < b.1)

/-- The result loop of `TafsirSearchEngine.search`: walk the sorted
candidates, skip entries failing a filter, append otherwise, and break as
soon as `len(results) >= top_k`.  `need` is `top_k` minus the number of
results already collected, so the break test `len(results) >= top_k` after an
append is `need ≤ 1`. -/
def searchLoop (entries : List Entry) (aF : Option String) (sF : Option Nat) :
    Nat → List (Nat × ℚ) → List SRes
  | _, [] => []
  | need, (i, s) :: rest =>
    let e := entries.getD i defaultEntry
    if keepE e aF sF then
      if need ≤ 1 then [⟨i, s, e⟩]
      else ⟨i, s, e⟩ :: searchLoop entries aF sF (need - 1) rest
    else searchLoop entries aF sF need rest

/-- `TafsirSearchEngine.search` (src/search_index.py).  The query translation
and `model.encode`/`cosine_similarity` steps are external collaborators; their
output, the per-entry similarity row `sims`, is the abstract input here.  The
code enumerates `sims`, stable-sorts descending by score, then filters and
truncates to `top_k`. -/
def engineSearch (entries : List Entry) (sims : List ℚ) (top_k : Nat)
    (author : Option String) (surah : Option Nat) : List SRes :=
  searchLoop entries author surah top_k (sortDesc (enumFrom 0 sims))

/-- A `TafsirDocument` of `src/main.py` (dataclass): `metadata` is opaque to
the core and modelled as an association list; `embedding` defaults to
`None`. -/
structure Doc where
  surah_no : Nat
  ayah_no : Nat
  author : String
  text : String
  metadata : List (String × String)
  embedding : Option (List ℚ) := none
  deriving DecidableEq

/-- The author filter of `ArabicTafsirRAG.search`:
`if author_filter and doc.author != author_filter: continue` — an exact string
comparison, with Python truthiness disabling the filter for `None`/`""`. -/
def ragPass (d : Doc) : Option String → Bool
  | none => true
  | some a => if a == "" then true else d.author == a

/-- Python truthiness of the optional author filter string. -/
def truthyS : Option String → Bool
  | none => false
  | some a => !(a == "")

/-- A search hit of `ArabicTafsirRAG.search` (score plus the document fields),
with the FAISS index position kept for specification purposes. -/
structure RRes where
  idx : Nat
  score : ℚ
  doc : Doc
  deriving DecidableEq

/-- Default used to keep `self.documents[idx]` total (same in-range argument
as for `defaultEntry`). -/
def defaultDoc : Doc := ⟨0, 0, "", "", [], none⟩

/-- The result loop of `ArabicTafsirRAG.search`: same append/break structure
as the engine loop, with the exact author comparison. -/
def ragLoop (docs : List Doc) (aF : Option String) :
    Nat → List (Nat × ℚ) → List RRes
  | _, [] => []
  | need, (i, s) :: rest =>
    let d := docs.getD i defaultDoc
    if ragPass d aF then
      if need ≤ 1 then [⟨i, s, d⟩]
      else ⟨i, s, d⟩ :: ragLoop docs aF (need - 1) rest
    else ragLoop docs aF need rest

/-- `ArabicTafsirRAG.search` (src/main.py).  The FAISS call
`self.faiss_index.search(query_embedding, search_k)` returns the `search_k`
best inner-product matches in descending order (`-1` padding when the index
holds fewer points, which the code's `idx == -1` break skips); it is modelled
as `take search_k` of the descending-sorted score enumeration.  Note
`search_k = k * 10 if author_filter else k`: a bounded candidate set. -/
def ragSearch (docs : List Doc) (sims : List ℚ) (k : Nat)
    (authorFilter : Option String) : List RRes :=
  let searchK := if truthyS authorFilter then k * 10 else k
  ragLoop docs authorFilter k ((sortDesc (enumFrom 0 sims)).take searchK)

/-- Eleven concrete documents: ten by author `"a"` ranked above the single
document by author `"b"`. -/
def elevenDocs : List Doc :=
  List.replicate 10 ⟨1, 1, "a", "t", [], none⟩ ++ [⟨1, 1, "b", "t", [], none⟩]

/-- A one-document corpus used to instantiate build properties. -/
def oneDoc : List Doc := [⟨1, 1, "a", "t", [], none⟩]

/-- A constant embedding function producing the vector `[3, 4]`
(squared norm 25). -/
def embed34 : String → List ℝ := fun _ => [3, 4]

/-- The batch split performed by `ArabicTafsirRAG.create_embeddings`:
`for i in range(0, len(texts), batch_size): texts[i:i + batch_size]`.
The code calls it with `batch_size = 32`; a zero step is impossible in the
source, so `bs = 0` is treated like step 1 to keep the function total. -/
def toBatches {α : Type} (bs : Nat) : List α → List (List α)
  | [] => []
  | x :: xs => (x :: xs.take (bs - 1)) :: toBatches bs (xs.drop (bs - 1))
  termination_by l => l.length
  decreasing_by simp only [List.length_drop, List.length_cons]; omega

/-- `ArabicTafsirRAG.create_embeddings` (src/main.py): encode the texts batch
by batch and `np.vstack` the batches; `embed` is the external
`SentenceTransformer.encode` applied to a single text. -/
def createEmbeddings (embed : String → List ℝ) (batchSize : Nat)
    (texts : List String) : List (List ℝ) :=
  ((toBatches batchSize texts).map (fun b => b.map embed)).flatten

/-- Squared Euclidean norm of a vector. -/
def normSq (v : List ℝ) : ℝ := (v.map (fun x => x * x)).sum

/-- Row-wise `faiss.normalize_L2`: divide every component by the Euclidean
norm (on the zero vector real division by zero leaves it zero). -/
noncomputable def normalizeL2 (v : List ℝ) : List ℝ :=
  v.map (fun x => x / Real.sqrt (normSq v))

/-- `ArabicTafsirRAG.build_faiss_index` (src/main.py): the embedding matrix is
normalized in place by `faiss.normalize_L2` and added to the flat index, so
the stored vectors are the row-normalized embeddings in order. -/
noncomputable def buildFaissVectors (embs : List (List ℝ)) : List (List ℝ) :=
  embs.map normalizeL2

/-- `TafsirSearchEngine._build_index` (src/search_index.py) embedding step:
`self.embeddings = self.model.encode(texts)` with
`texts = [e["text"] for e in self.entries]` — the raw model output is stored,
with no normalization. -/
def engineBuildVectors (embed : String → List ℝ) (entries : List Entry) :
    List (List ℝ) :=
  (entries.map (fun e => e.text)).map embed

/-- Outcome of reading one file of a snapshot: absent, unreadable (an
exception from `pickle.load` / `np.load` / `faiss.read_index`), or its
decoded content. -/
inductive FileData (α : Type) where
  | missing
  | corrupt
  | ok (val : α)
  deriving DecidableEq

/-- The build metadata written by `ArabicTafsirRAG.save_index` into
`metadata.json`; `created_at` is wall-clock output and carries no
information the code ever reads, so it is fixed to `""` in the model. -/
structure MetadataJson where
  model_name : String
  num_documents : Nat
  embedding_dim : Option Nat
  created_at : String
  deriving DecidableEq

/-- The on-disk snapshot directory of `ArabicTafsirRAG`
(`faiss_index.bin`, `documents.pkl`, `metadata.json`), each file with its
read outcome.  Stored vector components are modelled as rationals. -/
structure RagFS where
  faissFile : FileData (List (List ℚ))
  documentsFile : FileData (List Doc)
  metadataFile : FileData MetadataJson
  deriving DecidableEq

/-- The mutable index state of an `ArabicTafsirRAG` instance. -/
structure RagState where
  faiss_index : Option (List (List ℚ))
  documents : List Doc
  embeddings : Option (List (List ℚ))
  deriving DecidableEq

/-- Fresh instance state (nothing built yet). -/
def initState : RagState := ⟨none, [], none⟩

/-- A concrete built state: one document with a stored embedding, its vector
in the FAISS index and in the embedding matrix. -/
def v1State : RagState :=
  ⟨some [[1, 0]], [⟨1, 1, "a", "t", [], some [1, 0]⟩], some [[1, 0]]⟩

/-- The embeddings-extraction step of `ArabicTafsirRAG.load_index`:
`if self.documents and self.documents[0].embedding is not None:`
rebuild the matrix from the per-document embeddings. -/
def extractEmb (st : RagState) : RagState :=
  match st.documents with
  | [] => st
  | d :: _ =>
    match d.embedding with
    | none => st
    | some _ =>
      { st with embeddings := some (st.documents.map (fun d2 => d2.embedding.getD [])) }

/-- The `documents.pkl` step of `ArabicTafsirRAG.load_index`: a missing file
is silently skipped, a read exception is caught by the surrounding
`try`/`except` which returns `False`, otherwise the documents are installed
and the function ends returning `True`. -/
def loadDocsStep (st : RagState) (fs : RagFS) : RagState × Bool :=
  match fs.documentsFile with
  | .corrupt => (st, false)
  | .missing => (extractEmb st, true)
  | .ok docs => (extractEmb { st with documents := docs }, true)

/-- `ArabicTafsirRAG.load_index` (src/main.py): read `faiss_index.bin` if it
exists, then `documents.pkl` if it exists, catch any exception and return
`False`; otherwise return `True`.  `metadata.json` is never read. -/
def loadIndex (st : RagState) (fs : RagFS) : RagState × Bool :=
  match fs.faissFile with
  | .corrupt => (st, false)
  | .missing => loadDocsStep st fs
  | .ok v => loadDocsStep { st with faiss_index := some v } fs

/-- `ArabicTafsirRAG.save_index` (src/main.py): write the FAISS index when one
exists, the documents, and `metadata.json` holding the configured
`model_name`, the document count and the embedding dimension. -/
def saveIndex (st : RagState) (model_name : String) : RagFS :=
  { faissFile := match st.faiss_index with
      | some v => .ok v
      | none => .missing
    documentsFile := .ok st.documents
    metadataFile := .ok
      ⟨model_name, st.documents.length,
       (match st.embeddings with
        | some em => some (em.headD []).length
        | none => none), ""⟩ }

/-- The startup policy of `src/main.py` `__main__`: rebuild the index only
when `load_index()` returns `False`. -/
def rebuildNeeded (st : RagState) (fs : RagFS) : Bool :=
  !(loadIndex st fs).2

/-- The mutable index state of a `TafsirSearchEngine` instance. -/
structure EngineState where
  entries : List Entry
  embeddings : Option (List (List ℚ))
  deriving DecidableEq

/-- The cache directory of `TafsirSearchEngine`
(`entries.pkl`, `embeddings.npy`). -/
structure EngineFS where
  entriesFile : FileData (List Entry)
  embeddingsFile : FileData (List (List ℚ))
  deriving DecidableEq

/-- `TafsirSearchEngine._load_index_from_cache` (src/search_index.py): return
`False` when either path is absent; load the entries (an exception yields
`False`), load the embeddings (an exception yields `False`, with the entries
already assigned), else return `True`.  No count or model validation is
performed. -/
def engineLoadCache (st : EngineState) (fs : EngineFS) : EngineState × Bool :=
  match fs.entriesFile, fs.embeddingsFile with
  | .missing, _ => (st, false)
  | _, .missing => (st, false)
  | .corrupt, _ => (st, false)
  | .ok es, .corrupt => ({ st with entries := es }, false)
  | .ok es, .ok em => (⟨es, some em⟩, true)

/-- A raw JSON object of a consolidated corpus file, as consumed by
`TafsirSearchEngine._build_index`: `entry["k"]` on a missing key raises
`KeyError` (the `Option` is `none`), while the `entry.get("k", default)`
keys are the last three fields. -/
structure RawEntry where
  tafsir_text : Option String
  author : Option String
  surah_number : Option Nat
  ayah_range : Option (List Nat)
  surah_name_arabic : Option String
  surah_name_english : Option String
  source_urls : Option (List String)
  deriving DecidableEq

/-- One iteration of the entry loop of `TafsirSearchEngine._build_index`:
`none` models a `KeyError` escaping the (handler-free) loop. -/
def buildEntry (r : RawEntry) : Option Entry := do
  let t ← r.tafsir_text
  let a ← r.author
  let s ← r.surah_number
  let rng ← r.ayah_range
  pure ⟨t, a, s, rng, r.surah_name_arabic.getD "", r.surah_name_english.getD "",
        r.source_urls.getD []⟩

/-- The entry loop of `TafsirSearchEngine._build_index` over one corpus file:
there is no exception handling, so the first malformed entry aborts the whole
build (`none`), discarding the well-formed entries around it. -/
def buildEntries (l : List RawEntry) : Option (List Entry) :=
  l.mapM buildEntry

/-- Outcome of `json.load` on a metadata file found by glob. -/
inductive ParseOut (α : Type) where
  | failed
  | ok (val : α)
  deriving DecidableEq

/-- An author directory as walked by `ArabicTafsirRAG.load_author_data`:
the `*.json` metadata files as (stem, parse outcome) and the `*.txt` files
as (stem, content). -/
structure AuthorDir where
  name : String
  jsonFiles : List (String × ParseOut (List (String × String)))
  txtFiles : List (String × String)

/-- Python `int(stem)` on a filename stem: defined when the stem is a
non-empty string of decimal digits (the shape of the corpus filenames; the
sign/whitespace/underscore-grouping liberties of Python `int()` play no role
here and are not modelled).  Written over the character data so it
evaluates. -/
def parseNatChars (cs : List Char) : Option Nat :=
  if cs ≠ [] ∧ cs.all Char.isDigit then
    some (cs.foldl (fun n c => n * 10 + (c.toNat - 48)) 0)
  else none

/-- Python `str.split('_')` over the character data (`"2_".split('_')` is
`["2", ""]`, etc.). -/
def splitOnChar (c : Char) (cs : List Char) : List (List Char) :=
  cs.foldr
    (fun x acc =>
      if x = c then [] :: acc
      else match acc with
        | [] => [[x]]
        | a :: rest => (x :: a) :: rest) [[]]

/-- Python `str.strip()`: drop whitespace from both ends (written over the
character data so it evaluates). -/
def trimStr (s : String) : String :=
  ⟨(((s.data.dropWhile Char.isWhitespace).reverse).dropWhile
      Char.isWhitespace).reverse⟩

/-- The filename test of `glob(f"{surah_no}_*.txt")` on a `.txt` stem: the
stem starts with `"{surah_no}_"`. -/
def globMatch (surah : Nat) (stem : String) : Bool :=
  (toString surah ++ "_").data.isPrefixOf stem.data

/-- The body of the inner text-file loop of `ArabicTafsirRAG.load_author_data`:
`ayah_no = int(text_file.stem.split('_')[1])` — a missing second component
(`IndexError`) or a non-numeric one (`ValueError`) is caught, logged and
skipped (`none`); otherwise the document is built from the stripped file
content — an empty text is not rejected. -/
def docOfTxtFile (authorName : String) (surah : Nat)
    (meta : List (String × String)) (tf : String × String) : Option Doc :=
  match (splitOnChar '_' tf.1.data)[1]? with
  | none => none
  | some part =>
    match parseNatChars part with
    | none => none
    | some ayah => some ⟨surah, ayah, authorName, trimStr tf.2, meta, none⟩

/-- The body of `ArabicTafsirRAG.load_author_data` for one metadata file:
`int(json_file.stem)` failing (`ValueError`) or `json.load` failing
(`JSONDecodeError`) is caught, logged and skipped (contributes nothing);
then each matching text file is processed by `docOfTxtFile`. -/
def docsOfJsonFile (authorName : String) (txtFiles : List (String × String))
    (jf : String × ParseOut (List (String × String))) : List Doc :=
  match parseNatChars jf.1.data with
  | none => []
  | some surah =>
    match jf.2 with
    | .failed => []
    | .ok meta =>
      (txtFiles.filter (fun tf => globMatch surah tf.1)).filterMap
        (docOfTxtFile authorName surah meta)

/-- `ArabicTafsirRAG.load_author_data` (src/main.py): the documents collected
over all metadata files of the author's folder, in glob order. -/
def loadAuthorData (dir : AuthorDir) : List Doc :=
  (dir.jsonFiles.map (docsOfJsonFile dir.name dir.txtFiles)).flatten

/-- A Qdrant point payload as written by `src/bulk_ingest.py`:
`author` a string, `surah` the file stem (a string), `ayah_range` the
two-element `[start, end]` array from the consolidated JSON, and the text.
Absent keys make a field condition unsatisfied. -/
structure QPoint where
  author : Option String
  surah : Option String
  ayah_range : Option (List Nat)
  tafsir_text : Option String
  deriving DecidableEq

/-- Qdrant `FieldCondition` with `MatchValue`: the payload field exists and
equals the value. -/
def matchString : Option String → String → Bool
  | none, _ => false
  | some s, v => s == v

/-- Qdrant `FieldCondition` with `Range(gte, lte)` evaluated on the
`ayah_range` payload field: for an array-valued field the condition is
satisfied when at least one element lies in the closed interval — here
`gte = lte = ayah`, so when some element equals `ayah`. -/
def rangeCond (ayah : Nat) : Option (List Nat) → Bool
  | none => false
  | some arr => arr.any (fun v => decide (ayah ≤ v) && decide (v ≤ ayah))

/-- The `client.scroll` filter of `search_text` (src/qdrant_utils.py): all
three `must` conditions hold (the single result page is modelled as the full
matching list; with non-overlapping ranges at most one point matches). -/
def qdrantScroll (pts : List QPoint) (author surah : String) (ayah : Nat) :
    List QPoint :=
  pts.filter (fun p =>
    matchString p.author author && matchString p.surah surah &&
      rangeCond ayah p.ayah_range)

/-- `search_text` (src/qdrant_utils.py): scroll with the author/surah/ayah
filter, then keep the last result that carries a `tafsir_text` payload key
(the loop overwrites `tafsir_text` on every hit); `none` when nothing
matched. -/
def search_text (pts : List QPoint) (author surah : String) (ayah : Nat) :
    Option String :=
  (qdrantScroll pts author surah ayah).foldl
    (fun acc p => match p.tafsir_text with
      | some t => some t
      | none => acc) none

/-- The cache backing store of `src/utils.py`: a map from file path to the
derived text stored in that file (the single-field JSON wrapper written by
`json.dump` and unwrapped by `.get` is the identity on the value). -/
abbrev CacheFS := String → Option String

/-- The translation cache path:
`os.path.join("translation", author, f"{surah}_{ayah}_{lang_code}.json")`. -/
def transPath (author : String) (surah ayah : Nat) (lang : String) : String :=
  "translation/" ++ author ++ "/" ++ toString surah ++ "_" ++ toString ayah
    ++ "_" ++ lang ++ ".json"

/-- The reflection cache path:
`os.path.join("reflection", author, f"{surah}_{from_ayah}_{to_ayah}_{lang}.json")`. -/
def reflPath (author : String) (surah fromAyah toAyah : Nat) (lang : String) :
    String :=
  "reflection/" ++ author ++ "/" ++ toString surah ++ "_" ++ toString fromAyah
    ++ "_" ++ toString toAyah ++ "_" ++ lang ++ ".json"

/-- `save_translation_to_cache` (src/utils.py): overwrite the file at the
key's path with the value. -/
def save_translation_to_cache (fs : CacheFS) (author : String)
    (surah ayah : Nat) (lang text : String) : CacheFS :=
  fun p => if p = transPath author surah ayah lang then some text else fs p

/-- `load_cached_translation` (src/utils.py): read the file at the key's path
when it exists, else `None`. -/
def load_cached_translation (fs : CacheFS) (author : String) (surah ayah : Nat)
    (lang : String) : Option String :=
  fs (transPath author surah ayah lang)

/-- `save_reflection_to_cache` (src/utils.py). -/
def save_reflection_to_cache (fs : CacheFS) (author : String)
    (surah fromAyah toAyah : Nat) (lang text : String) : CacheFS :=
  fun p => if p = reflPath author surah fromAyah toAyah lang then some text else fs p

/-- `load_cached_reflection` (src/utils.py). -/
def load_cached_reflection (fs : CacheFS) (author : String)
    (surah fromAyah toAyah : Nat) (lang : String) : Option String :=
  fs (reflPath author surah fromAyah toAyah lang)

/-- The cache mutations available in `src/utils.py`: only the two save
functions — there is no delete, eviction or expiry operation. -/
inductive CacheOp where
  | putT (author : String) (surah ayah : Nat) (lang text : String)
  | putR (author : String) (surah fromAyah toAyah : Nat) (lang text : String)

/-- The path an operation writes. -/
def opPath : CacheOp → String
  | .putT a s ay l _ => transPath a s ay l
  | .putR a s f t l _ => reflPath a s f t l

/-- Apply one cache mutation. -/
def applyOp (fs : CacheFS) : CacheOp → CacheFS
  | .putT a s ay l v => save_translation_to_cache fs a s ay l v
  | .putR a s f t l v => save_reflection_to_cache fs a s f t l v

/-- Apply a sequence of cache mutations, oldest first. -/
def applyOps (fs : CacheFS) : List CacheOp → CacheFS
  | [] => fs
  | op :: ops => applyOps (applyOp fs op) ops

/-! ## Helper lemmas about the stable descending sort and the result loop -/

theorem mem_insertDesc {x z : Nat × ℚ} (l : List (Nat × ℚ))
    (h : z ∈ insertDesc x l) : z = x ∨ z ∈ l := by
  induction l with
  | nil => simp [insertDesc] at h; simp [h]
  | cons y ys ih =>
    simp only [insertDesc] at h
    split at h
    · rcases List.mem_cons.1 h with h1 | h2
      · exact Or.inr (by simp [h1])
      · rcases ih h2 with h3 | h4
        · exact Or.inl h3
        · exact Or.inr (List.mem_cons_of_mem _ h4)
    · rcases List.mem_cons.1 h with h1 | h2
      · exact Or.inl h1
      · exact Or.inr h2

theorem insertDesc_perm (x : Nat × ℚ) (l : List (Nat × ℚ)) :
    List.Perm (insertDesc x l) (x :: l) := by
  induction l with
  | nil => simp [insertDesc]
  | cons y ys ih =>
    simp only [insertDesc]
    split
    · exact (ih.cons y).trans (List.Perm.swap x y ys)
    · exact List.Perm.refl _

theorem sortDesc_perm (l : List (Nat × ℚ)) : List.Perm (sortDesc l) l := by
  induction l with
  | nil => simp [sortDesc]
  | cons x xs ih =>
    have hx : sortDesc (x :: xs) = insertDesc x (sortDesc xs) := rfl
    rw [hx]
    exact (insertDesc_perm x (sortDesc xs)).trans (ih.cons x)

theorem pairwise_insertDesc {x : Nat × ℚ} {l : List (Nat × ℚ)}
    (hl : l.Pairwise scoreIdxOrder) (hx : ∀ y ∈ l, x.1 < y.1) :
    (insertDesc x l).Pairwise scoreIdxOrder := by
  induction l with
  | nil => simp [insertDesc]
  | cons y ys ih =>
    rcases List.pairwise_cons.1 hl with ⟨hy, hys⟩
    simp only [insertDesc]
    split
    case isTrue hlt =>
      refine List.pairwise_cons.2 ⟨?_, ih hys ?_⟩
      · intro z hz
        rcases mem_insertDesc ys hz with rfl | hzys
        · exact Or.inl hlt
        · exact hy z hzys
      · intro z hz
        exact hx z (List.mem_cons_of_mem _ hz)
    case isFalse hge =>
      refine List.pairwise_cons.2 ⟨?_, hl⟩
      intro z hz
      rcases List.mem_cons.1 hz with rfl | hzys
      · have h1 : z.2 ≤ x.2 := le_of_not_lt hge
        rcases lt_or_eq_of_le h1 with h2 | h2
        · exact Or.inl h2
        · exact Or.inr ⟨h2.symm, hx z (List.mem_cons_self z ys)⟩
      · have hz2 : z.2 ≤ y.2 := by
          rcases hy z hzys with h | ⟨h, _⟩
          · exact le_of_lt h
          · exact le_of_eq h.symm
        have hy2 : y.2 ≤ x.2 := le_of_not_lt hge
        rcases lt_or_eq_of_le (le_trans hz2 hy2) with h3 | h3
        · exact Or.inl h3
        · exact Or.inr ⟨h3.symm, hx z (List.mem_cons_of_mem _ hzys)⟩

theorem pairwise_sortDesc {l : List (Nat × ℚ)}
    (h : l.Pairwise (fun a b => a.1 < b.1)) :
    (sortDesc l).Pairwise scoreIdxOrder := by
  induction l with
  | nil => simp [sortDesc]
  | cons x xs ih =>
    rcases List.pairwise_cons.1 h with ⟨hx, hxs⟩
    have he : sortDesc (x :: xs) = insertDesc x (sortDesc xs) := rfl
    rw [he]
    refine pairwise_insertDesc (ih hxs) ?_
    intro y hy
    exact hx y ((sortDesc_perm xs).mem_iff.1 hy)

theorem le_enumFrom {n : Nat} {l : List ℚ} : ∀ y ∈ enumFrom n l, n ≤ y.1 := by
  induction l generalizing n with
  | nil => simp [enumFrom]
  | cons s ss ih =>
    intro y hy
    simp only [enumFrom, List.mem_cons] at hy
    rcases hy with rfl | hy
    · exact le_refl n
    · exact le_trans (Nat.le_succ n) (ih y hy)

theorem pairwise_enumFrom (n : Nat) (l : List ℚ) :
    (enumFrom n l).Pairwise (fun a b => a.1 < b.1) := by
  induction l generalizing n with
  | nil => simp [enumFrom]
  | cons s ss ih =>
    simp only [enumFrom]
    refine List.pairwise_cons.2 ⟨?_, ih (n + 1)⟩
    intro y hy
    exact lt_of_lt_of_le (Nat.lt_succ_self n) (le_enumFrom y hy)

theorem searchLoop_mem {entries : List Entry} {aF : Option String}
    {sF : Option Nat} {need : Nat} {c : List (Nat × ℚ)} {r : SRes}
    (h : r ∈ searchLoop entries aF sF need c) :
    (r.idx, r.score) ∈ c ∧ r.entry = entries.getD r.idx defaultEntry ∧
      keepE r.entry aF sF = true := by
  induction c generalizing need with
  | nil => simp [searchLoop] at h
  | cons p rest ih =>
    obtain ⟨i, s⟩ := p
    simp only [searchLoop] at h
    split at h
    case isTrue hkeep =>
      split at h
      · simp only [List.mem_singleton] at h
        subst h
        exact ⟨List.mem_cons_self _ _, rfl, hkeep⟩
      · rcases List.mem_cons.1 h with rfl | h2
        · exact ⟨List.mem_cons_self _ _, rfl, hkeep⟩
        · obtain ⟨h3, h4, h5⟩ := ih h2
          exact ⟨List.mem_cons_of_mem _ h3, h4, h5⟩
    case isFalse hkeep =>
      obtain ⟨h3, h4, h5⟩ := ih h
      exact ⟨List.mem_cons_of_mem _ h3, h4, h5⟩

theorem searchLoop_pairwise {entries : List Entry} {aF : Option String}
    {sF : Option Nat} {need : Nat} {c : List (Nat × ℚ)}
    (hp : c.Pairwise scoreIdxOrder) :
    (searchLoop entries aF sF need c).Pairwise
      (fun a b : SRes => scoreIdxOrder (a.idx, a.score) (b.idx, b.score)) := by
  induction c generalizing need with
  | nil => simp [searchLoop]
  | cons p rest ih =>
    obtain ⟨i, s⟩ := p
    rcases List.pairwise_cons.1 hp with ⟨hhead, htail⟩
    simp only [searchLoop]
    split
    · split
      · simp
      · refine List.pairwise_cons.2 ⟨?_, ih htail⟩
        intro r hr
        exact hhead _ (searchLoop_mem hr).1
    · exact ih htail

theorem searchLoop_length {entries : List Entry} {aF : Option String}
    {sF : Option Nat} {k : Nat} (c : List (Nat × ℚ)) (hk : 1 ≤ k) :
    (searchLoop entries aF sF k c).length =
      min k (c.countP (fun p => keepE (entries.getD p.1 defaultEntry) aF sF)) := by
  induction c generalizing k with
  | nil => simp [searchLoop]
  | cons p rest ih =>
    obtain ⟨i, s⟩ := p
    simp only [searchLoop, List.countP_cons]
    split
    case isTrue hkeep =>
      split
      case isTrue h1 =>
        have hk1 : k = 1 := le_antisymm h1 hk
        subst hk1
        simp only [List.length_singleton, hkeep]
        omega
      case isFalse h1 =>
        have hrec := @ih (k - 1) (by omega)
        simp only [List.length_cons, hrec, hkeep]
        omega
    case isFalse hkeep =>
      have hrec := ih hk
      simp only [hrec]
      have : keepE (entries.getD i defaultEntry) aF sF = false := by
        simpa using hkeep
      simp [this]

theorem searchLoop_congr {entries : List Entry} {aF aF2 : Option String}
    {sF sF2 : Option Nat}
    (h : ∀ e, keepE e aF sF = keepE e aF2 sF2) (k : Nat) (c : List (Nat × ℚ)) :
    searchLoop entries aF sF k c = searchLoop entries aF2 sF2 k c := by
  induction c generalizing k with
  | nil => simp [searchLoop]
  | cons p rest ih =>
    obtain ⟨i, s⟩ := p
    simp only [searchLoop, h, ih]

theorem map_getD_enumFrom (entries : List Entry) :
    ∀ (k : Nat) (sims : List ℚ), k + sims.length = entries.length →
      (enumFrom k sims).map (fun p => entries.getD p.1 defaultEntry) =
        entries.drop k := by
  intro k sims
  induction sims generalizing k with
  | nil =>
    intro h
    have hk : k = entries.length := by simpa using h
    simp [enumFrom, hk, List.drop_length]
  | cons s ss ih =>
    intro h
    have hk : k < entries.length := by
      simp only [List.length_cons] at h
      omega
    simp only [enumFrom, List.map_cons]
    rw [ih (k + 1) (by simp only [List.length_cons] at h; omega)]
    rw [List.drop_eq_getElem_cons hk]
    congr 1
    exact List.getD_eq_getElem entries defaultEntry hk

theorem countP_sorted_candidates (entries : List Entry) (sims : List ℚ)
    (h : sims.length = entries.length) (aF : Option String) (sF : Option Nat) :
    (sortDesc (enumFrom 0 sims)).countP
        (fun p => keepE (entries.getD p.1 defaultEntry) aF sF) =
      entries.countP (fun e => keepE e aF sF) := by
  rw [(sortDesc_perm (enumFrom 0 sims)).countP_eq]
  have hmap := map_getD_enumFrom entries 0 sims (by omega)
  have hcm := List.countP_map (fun e => keepE e aF sF)
    (fun p : Nat × ℚ => entries.getD p.1 defaultEntry) (enumFrom 0 sims)
  rw [hmap] at hcm
  simpa using hcm.symm

theorem ragLoop_mem {docs : List Doc} {aF : Option String} {need : Nat}
    {c : List (Nat × ℚ)} {r : RRes} (h : r ∈ ragLoop docs aF need c) :
    ragPass r.doc aF = true := by
  induction c generalizing need with
  | nil => simp [ragLoop] at h
  | cons p rest ih =>
    obtain ⟨i, s⟩ := p
    simp only [ragLoop] at h
    split at h
    case isTrue hkeep =>
      split at h
      · simp only [List.mem_singleton] at h
        subst h
        exact hkeep
      · rcases List.mem_cons.1 h with rfl | h2
        · exact hkeep
        · exact ih h2
    case isFalse hkeep => exact ih h

/-! ## Claim theorems -/

/-- C4: for every query (similarity row) and every `k ≥ 1`, the result list of
`TafsirSearchEngine.search` is sorted by non-increasing score, and results
with equal scores appear in their insertion (enumeration index) order. -/
theorem engineSearch_sorted_stable (entries : List Entry) (sims : List ℚ)
    (k : Nat) (aF : Option String) (sF : Option Nat) (_hk : 1 ≤ k) :
    (engineSearch entries sims k aF sF).Pairwise
      (fun a b => b.score < a.score ∨ (a.score = b.score ∧ a.idx < b.idx)) := by
  have h := @searchLoop_pairwise entries aF sF k (sortDesc (enumFrom 0 sims))
    (pairwise_sortDesc (pairwise_enumFrom 0 sims))
  simpa [scoreIdxOrder] using h

/-- Witness for C4 at a concrete input with a tie. -/
theorem engineSearch_sorted_stable_wit :
    1 ≤ 2 ∧ (engineSearch [defaultEntry, defaultEntry] [1, 1] 2 none none).Pairwise
      (fun a b => b.score < a.score ∨ (a.score = b.score ∧ a.idx < b.idx)) :=
  ⟨by decide,
   engineSearch_sorted_stable [defaultEntry, defaultEntry] [1, 1] 2 none none
     (by decide)⟩

/-- C1 (amended): `TafsirSearchEngine.search` scans the entire sorted index,
so with the alignment invariant `len(sims) = len(entries)` it returns exactly
`min k` (number of passages satisfying the filter) results — fewer than `k`
only when fewer than `k` passages satisfy the filter.  (The claim fails for
`ArabicTafsirRAG.search`; see the counterexample.) -/
theorem engineSearch_length_min (entries : List Entry) (sims : List ℚ) (k : Nat)
    (aF : Option String) (sF : Option Nat) (hk : 1 ≤ k)
    (hlen : sims.length = entries.length) :
    (engineSearch entries sims k aF sF).length =
      min k (entries.countP (fun e => keepE e aF sF)) := by
  unfold engineSearch
  rw [searchLoop_length _ hk, countP_sorted_candidates entries sims hlen aF sF]

/-- Witness for C1's amended theorem: two passages, `k = 5`, no filter. -/
theorem engineSearch_length_min_wit :
    1 ≤ 5 ∧ ([(1 : ℚ), 2].length = [defaultEntry, defaultEntry].length) ∧
      (engineSearch [defaultEntry, defaultEntry] [1, 2] 5 none none).length =
        min 5 ([defaultEntry, defaultEntry].countP (fun e => keepE e none none)) :=
  ⟨by decide, by decide,
   engineSearch_length_min [defaultEntry, defaultEntry] [1, 2] 5 none none
     (by decide) (by decide)⟩

/-- C1 counterexample: `ArabicTafsirRAG.search` with `k = 1` and author filter
`"b"` fetches only `k * 10 = 10` candidates; with eleven documents whose only
author-`"b"` document ranks eleventh, it returns no result although one
passage satisfies the filter. -/
theorem ragSearch_truncates_under_filter :
    (ragSearch elevenDocs [11, 10, 9, 8, 7, 6, 5, 4, 3, 2, 1] 1 (some "b")).length = 0
      ∧ 1 ≤ elevenDocs.countP (fun d => d.author == "b") := by
  constructor
  · decide
  · decide

/-- C5 (amended): with a non-empty author filter `A`, every result of
`TafsirSearchEngine.search` has an author equal to `A` up to letter case (the
comparison is lowercased), and every result of `ArabicTafsirRAG.search` has
an author exactly equal to the filter; with a non-zero surah filter `S`,
every engine result has surah exactly `S`. -/
theorem search_filter_soundness (entries : List Entry) (sims : List ℚ) (k : Nat)
    (A : String) (hA : A ≠ "") (sF : Option Nat) (aF : Option String) (S : Nat)
    (hS : S ≠ 0) (docs : List Doc) (sims2 : List ℚ) (k2 : Nat) (A2 : String)
    (hA2 : A2 ≠ "") :
    (∀ r ∈ engineSearch entries sims k (some A) sF,
        lowerStr r.entry.author = lowerStr A)
    ∧ (∀ r ∈ engineSearch entries sims k aF (some S), r.entry.surah = S)
    ∧ (∀ r ∈ ragSearch docs sims2 k2 (some A2), r.doc.author = A2) := by
  refine ⟨?_, ?_, ?_⟩
  · intro r hr
    have hkeep := (searchLoop_mem hr).2.2
    simp only [keepE, Bool.and_eq_true] at hkeep
    have hpass := hkeep.1
    have hfalse : (A == "") = false := beq_eq_false_iff_ne.mpr hA
    simpa [authorPass, hfalse] using hpass
  · intro r hr
    have hkeep := (searchLoop_mem hr).2.2
    simp only [keepE, Bool.and_eq_true] at hkeep
    have hpass := hkeep.2
    have hfalse : (S == 0) = false := beq_eq_false_iff_ne.mpr hS
    simpa [surahPass, hfalse] using hpass
  · intro r hr
    have hpass := ragLoop_mem hr
    have hfalse : (A2 == "") = false := beq_eq_false_iff_ne.mpr hA2
    simpa [ragPass, hfalse] using hpass

/-- Witness for C5's amended theorem at concrete inputs. -/
theorem search_filter_soundness_wit :
    ("b" : String) ≠ "" ∧ (2 : Nat) ≠ 0 ∧
      ((∀ r ∈ engineSearch [⟨"t", "B", 1, [1, 1], "", "", []⟩] [1] 5 (some "b") none,
          lowerStr r.entry.author = lowerStr "b")
       ∧ (∀ r ∈ engineSearch [⟨"t", "B", 1, [1, 1], "", "", []⟩] [1] 5 none (some 2),
          r.entry.surah = 2)
       ∧ (∀ r ∈ ragSearch [⟨1, 1, "b", "t", [], none⟩] [1] 1 (some "b"),
          r.doc.author = "b")) :=
  ⟨by decide, by decide,
   search_filter_soundness [⟨"t", "B", 1, [1, 1], "", "", []⟩] [1] 5 "b"
     (by decide) none none 2 (by decide) [⟨1, 1, "b", "t", [], none⟩] [1] 1 "b"
     (by decide)⟩

/-- C5 counterexample: with author filter `"b"`, `TafsirSearchEngine.search`
returns the passage authored `"B"` — an author different (as a string) from
the filter value. -/
theorem engineSearch_case_mismatch_returned :
    (engineSearch [⟨"t", "B", 1, [1, 1], "", "", []⟩] [1] 5 (some "b") none).map
        (fun r => r.entry.author) = ["B"] ∧ ("B" : String) ≠ "b" := by
  constructor
  · decide
  · decide

/-- C10: in `TafsirSearchEngine.search` the author comparison is
case-insensitive (an entry passes a non-empty author filter `A` exactly when
its lowercased author equals lowercased `A`, and a non-zero surah filter `S`
exactly when its surah equals `S`), and a falsy filter value — empty-string
author, surah `0`, or `None` for either — disables that filter, making the
search identical to the unfiltered one. -/
theorem filter_casefold_and_falsy (entries : List Entry) (sims : List ℚ)
    (k : Nat) (sF : Option Nat) (aF : Option String) (e : Entry) (A : String)
    (hA : A ≠ "") (S : Nat) (hS : S ≠ 0) :
    engineSearch entries sims k (some "") sF = engineSearch entries sims k none sF
    ∧ engineSearch entries sims k aF (some 0) = engineSearch entries sims k aF none
    ∧ (authorPass e (some A) = true ↔ lowerStr e.author = lowerStr A)
    ∧ (surahPass e (some S) = true ↔ e.surah = S) := by
  refine ⟨?_, ?_, ?_, ?_⟩
  · exact searchLoop_congr (fun e2 => by simp [keepE, authorPass]) k _
  · exact searchLoop_congr (fun e2 => by simp [keepE, surahPass]) k _
  · have hfalse : (A == "") = false := beq_eq_false_iff_ne.mpr hA
    simp [authorPass, hfalse]
  · have hfalse : (S == 0) = false := beq_eq_false_iff_ne.mpr hS
    simp [surahPass, hfalse]

/-- Witness for C10 at concrete inputs. -/
theorem filter_casefold_and_falsy_wit :
    ("x" : String) ≠ "" ∧ (3 : Nat) ≠ 0 ∧
      (engineSearch [] [] 1 (some "") none = engineSearch [] [] 1 none none
       ∧ engineSearch [] [] 1 none (some 0) = engineSearch [] [] 1 none none
       ∧ (authorPass defaultEntry (some "x") = true ↔
            lowerStr defaultEntry.author = lowerStr "x")
       ∧ (surahPass defaultEntry (some 3) = true ↔ defaultEntry.surah = 3)) :=
  ⟨by decide, by decide,
   filter_casefold_and_falsy [] [] 1 none none defaultEntry "x" (by decide) 3
     (by decide)⟩

/-- C2 (the code, evaluated): for the stored point with `ayah_range` `[2, 5]`,
`search_text` finds the passage at the range endpoints 2 and 5 but returns
`none` for the strictly interior ayah 3 (which the range contains), and
`none` outside the range — the Qdrant `Range` condition on the two-element
array matches only when the ayah equals `start` or `end`. -/
theorem search_text_interior_ayah_missed :
    search_text [⟨some "qurtubi", some "4", some [2, 5], some "T"⟩] "qurtubi" "4" 3
        = none
      ∧ 2 ≤ 3 ∧ 3 ≤ 5
      ∧ search_text [⟨some "qurtubi", some "4", some [2, 5], some "T"⟩] "qurtubi" "4" 2
          = some "T"
      ∧ search_text [⟨some "qurtubi", some "4", some [2, 5], some "T"⟩] "qurtubi" "4" 5
          = some "T"
      ∧ search_text [⟨some "qurtubi", some "4", some [2, 5], some "T"⟩] "qurtubi" "4" 10
          = none := by
  refine ⟨?_, ?_, ?_, ?_, ?_⟩ <;> decide

/-! ## Cache lemmas and theorem (C6) -/

theorem applyOp_ne {fs : CacheFS} {op : CacheOp} {p : String}
    (h : opPath op ≠ p) : applyOp fs op p = fs p := by
  cases op with
  | putT a s ay l v =>
    simp only [applyOp, save_translation_to_cache]
    rw [if_neg]
    intro hp
    exact h (by simpa [opPath] using hp.symm)
  | putR a s f t l v =>
    simp only [applyOp, save_reflection_to_cache]
    rw [if_neg]
    intro hp
    exact h (by simpa [opPath] using hp.symm)

theorem applyOps_ne {ops : List CacheOp} {p : String} :
    ∀ {fs : CacheFS}, (∀ op ∈ ops, opPath op ≠ p) → applyOps fs ops p = fs p := by
  induction ops with
  | nil => intro fs _; simp [applyOps]
  | cons op ops ih =>
    intro fs h
    simp only [applyOps]
    rw [ih (fun o ho => h o (List.mem_cons_of_mem _ ho))]
    exact applyOp_ne (h op (List.mem_cons_self _ _))

/-- C6: after a successful put, every subsequent get for the same key returns
the stored value across any sequence of cache operations that do not write
this key's path, until a later put for the same key, after which get returns
the new value; the only mutations in the code are the two put functions — no
eviction or expiry exists.  Stated for the translation cache (keyed by
author, surah, ayah, language) and the reflection cache (keyed by author,
surah, ayah range, language). -/
theorem cache_put_get_roundtrip (fs fs2 : CacheFS) (author : String)
    (surah ayah : Nat) (lang v v2 : String) (ops : List CacheOp)
    (hops : ∀ op ∈ ops, opPath op ≠ transPath author surah ayah lang)
    (author2 : String) (surah2 fromA toA : Nat) (lang2 r r2 : String) :
    load_cached_translation
        (applyOps (save_translation_to_cache fs author surah ayah lang v) ops)
        author surah ayah lang = some v
    ∧ load_cached_translation
        (save_translation_to_cache
          (save_translation_to_cache fs author surah ayah lang v)
          author surah ayah lang v2) author surah ayah lang = some v2
    ∧ load_cached_reflection
        (save_reflection_to_cache fs2 author2 surah2 fromA toA lang2 r)
        author2 surah2 fromA toA lang2 = some r
    ∧ load_cached_reflection
        (save_reflection_to_cache
          (save_reflection_to_cache fs2 author2 surah2 fromA toA lang2 r)
          author2 surah2 fromA toA lang2 r2) author2 surah2 fromA toA lang2
        = some r2 := by
  refine ⟨?_, ?_, ?_, ?_⟩
  · rw [load_cached_translation, applyOps_ne hops]
    simp [save_translation_to_cache]
  · simp [load_cached_translation, save_translation_to_cache]
  · simp [load_cached_reflection, save_reflection_to_cache]
  · simp [load_cached_reflection, save_reflection_to_cache]

/-- Witness for C6: a put for one translation key survives an intervening
reflection-cache write to a different path. -/
theorem cache_put_get_roundtrip_wit :
    (∀ op ∈ [CacheOp.putR "x" 1 1 2 "en" "w"],
        opPath op ≠ transPath "a" 1 2 "en")
    ∧ (load_cached_translation
          (applyOps (save_translation_to_cache (fun _ => none) "a" 1 2 "en" "v")
            [CacheOp.putR "x" 1 1 2 "en" "w"]) "a" 1 2 "en" = some "v"
       ∧ load_cached_translation
          (save_translation_to_cache
            (save_translation_to_cache (fun _ => none) "a" 1 2 "en" "v")
            "a" 1 2 "en" "v2") "a" 1 2 "en" = some "v2"
       ∧ load_cached_reflection
          (save_reflection_to_cache (fun _ => none) "x" 1 1 2 "en" "w")
          "x" 1 1 2 "en" = some "w"
       ∧ load_cached_reflection
          (save_reflection_to_cache
            (save_reflection_to_cache (fun _ => none) "x" 1 1 2 "en" "w")
            "x" 1 1 2 "en" "w2") "x" 1 1 2 "en" = some "w2") :=
  ⟨by decide,
   cache_put_get_roundtrip (fun _ => none) (fun _ => none) "a" 1 2 "en" "v" "v2"
     [CacheOp.putR "x" 1 1 2 "en" "w"] (by decide) "x" 1 1 2 "en" "w" "w2"⟩

/-! ## Embedding-pipeline lemmas and theorems (C3) -/

theorem toBatches_flatten_aux {α : Type} (bs : Nat) :
    ∀ (n : Nat) (l : List α), l.length ≤ n → (toBatches bs l).flatten = l := by
  intro n
  induction n with
  | zero =>
    intro l h
    cases l with
    | nil => simp [toBatches]
    | cons x xs => simp at h
  | succ n ih =>
    intro l h
    cases l with
    | nil => simp [toBatches]
    | cons x xs =>
      simp only [toBatches, List.flatten_cons]
      rw [ih (xs.drop (bs - 1)) ?_]
      · rw [List.cons_append, List.take_append_drop]
      · simp only [List.length_drop]
        simp only [List.length_cons] at h
        omega

theorem toBatches_flatten {α : Type} (bs : Nat) (l : List α) :
    (toBatches bs l).flatten = l :=
  toBatches_flatten_aux bs l.length l le_rfl

theorem createEmbeddings_eq_map (embed : String → List ℝ) (bs : Nat)
    (texts : List String) :
    createEmbeddings embed bs texts = texts.map embed := by
  unfold createEmbeddings
  rw [← List.map_flatten, toBatches_flatten]

theorem normSq_cons (x : ℝ) (v : List ℝ) :
    normSq (x :: v) = x * x + normSq v := by
  simp [normSq]

theorem normSq_nonneg (v : List ℝ) : 0 ≤ normSq v := by
  induction v with
  | nil => simp [normSq]
  | cons x xs ih =>
    rw [normSq_cons]
    nlinarith [mul_self_nonneg x]

theorem normSq_map_div (v : List ℝ) (c : ℝ) :
    normSq (v.map (fun x => x / c)) = normSq v / (c * c) := by
  induction v with
  | nil => simp [normSq]
  | cons x xs ih =>
    simp only [List.map_cons, normSq_cons, ih]
    rw [div_mul_div_comm, add_div]

theorem normSq_normalizeL2 {v : List ℝ} (h : normSq v ≠ 0) :
    normSq (normalizeL2 v) = 1 := by
  unfold normalizeL2
  rw [normSq_map_div, Real.mul_self_sqrt (normSq_nonneg v), div_self h]

/-- C3 (amended): after `create_embeddings` plus `build_faiss_index` on a
non-empty document list, the number of stored vectors equals the number of
documents, the i-th stored vector is the normalized embedding of the i-th
document's text, and — provided no embedding is the zero vector — every
stored vector has unit Euclidean norm.  `TafsirSearchEngine._build_index`
also stores one vector per entry in entry order, but stores the raw
(unnormalized) model output (see the counterexample). -/
theorem index_build_alignment_norm (embed : String → List ℝ) (bs : Nat)
    (docs : List Doc) (_hne : docs ≠ [])
    (hnz : ∀ d ∈ docs, normSq (embed d.text) ≠ 0) :
    (buildFaissVectors (createEmbeddings embed bs (docs.map (fun d => d.text)))).length
        = docs.length
    ∧ (∀ (i : Nat)
        (h1 : i < (buildFaissVectors
          (createEmbeddings embed bs (docs.map (fun d => d.text)))).length)
        (h2 : i < docs.length),
        (buildFaissVectors
          (createEmbeddings embed bs (docs.map (fun d => d.text)))).get ⟨i, h1⟩
          = normalizeL2 (embed ((docs.get ⟨i, h2⟩).text)))
    ∧ (∀ v ∈ buildFaissVectors
          (createEmbeddings embed bs (docs.map (fun d => d.text))), normSq v = 1)
    ∧ (∀ entries : List Entry,
        (engineBuildVectors embed entries).length = entries.length
        ∧ ∀ (j : Nat) (h3 : j < (engineBuildVectors embed entries).length)
            (h4 : j < entries.length),
            (engineBuildVectors embed entries).get ⟨j, h3⟩
              = embed ((entries.get ⟨j, h4⟩).text)) := by
  have hc := createEmbeddings_eq_map embed bs (docs.map (fun d => d.text))
  refine ⟨?_, ?_, ?_, ?_⟩
  · simp [buildFaissVectors, hc]
  · intro i h1 h2
    simp only [buildFaissVectors, hc, List.get_eq_getElem, List.getElem_map]
  · intro v hv
    simp only [buildFaissVectors, hc, List.map_map, List.mem_map] at hv
    obtain ⟨d, hd, rfl⟩ := hv
    exact normSq_normalizeL2 (hnz d hd)
  · intro entries
    refine ⟨by simp [engineBuildVectors], ?_⟩
    intro j h3 h4
    simp only [engineBuildVectors, List.get_eq_getElem, List.getElem_map]

/-- Witness for C3's amended theorem: one document, constant embedding
`[3, 4]` (squared norm 25, hence nonzero). -/
theorem index_build_alignment_norm_wit :
    oneDoc ≠ []
    ∧ (∀ d ∈ oneDoc, normSq (embed34 d.text) ≠ 0)
    ∧ ((buildFaissVectors
          (createEmbeddings embed34 32 (oneDoc.map (fun d => d.text)))).length
        = oneDoc.length
      ∧ (∀ (i : Nat)
          (h1 : i < (buildFaissVectors
            (createEmbeddings embed34 32 (oneDoc.map (fun d => d.text)))).length)
          (h2 : i < oneDoc.length),
          (buildFaissVectors
            (createEmbeddings embed34 32 (oneDoc.map (fun d => d.text)))).get ⟨i, h1⟩
            = normalizeL2 (embed34 ((oneDoc.get ⟨i, h2⟩).text)))
      ∧ (∀ v ∈ buildFaissVectors
            (createEmbeddings embed34 32 (oneDoc.map (fun d => d.text))),
          normSq v = 1)
      ∧ (∀ entries : List Entry,
          (engineBuildVectors embed34 entries).length = entries.length
          ∧ ∀ (j : Nat) (h3 : j < (engineBuildVectors embed34 entries).length)
              (h4 : j < entries.length),
              (engineBuildVectors embed34 entries).get ⟨j, h3⟩
                = embed34 ((entries.get ⟨j, h4⟩).text))) :=
  ⟨by simp [oneDoc],
   by
    intro d _
    simp [embed34, normSq]
    norm_num,
   index_build_alignment_norm embed34 32 oneDoc (by simp [oneDoc])
     (by
       intro d _
       simp [embed34, normSq]
       norm_num)⟩

/-- C3 counterexample: `TafsirSearchEngine._build_index` stores the raw model
output — with an embedding `[3, 4]` the stored vector has squared norm 25,
not 1, so stored vectors do not all have unit Euclidean norm. -/
theorem engine_vectors_not_normalized :
    engineBuildVectors embed34 [defaultEntry] = [[(3 : ℝ), 4]]
      ∧ normSq [(3 : ℝ), 4] ≠ 1 := by
  constructor
  · simp [engineBuildVectors, embed34]
  · simp [normSq]
    norm_num

/-! ## Persistence theorems (C7, C8) -/

/-- C7 (amended): `TafsirSearchEngine._load_index_from_cache` returns `False`
— a failure signal, not an exception — on missing or unreadable files, and
returns `True` for any snapshot whose two files read back, performing no
vector-count or model-identifier validation (the instantiation below uses
mismatched counts); `ArabicTafsirRAG.load_index` returns `True` even when
every snapshot file is missing. -/
theorem index_load_failure_behavior (st : EngineState) (es : List Entry)
    (em : List (List ℚ)) (st2 : RagState) :
    (∀ fs : EngineFS,
        (fs.entriesFile = .missing ∨ fs.embeddingsFile = .missing
          ∨ fs.entriesFile = .corrupt ∨ fs.embeddingsFile = .corrupt) →
          (engineLoadCache st fs).2 = false)
    ∧ (engineLoadCache st ⟨.ok es, .ok em⟩).2 = true
    ∧ (loadIndex st2 ⟨.missing, .missing, .missing⟩).2 = true := by
  refine ⟨?_, rfl, ?_⟩
  · intro fs h
    obtain ⟨ef, mf⟩ := fs
    cases ef <;> cases mf <;> simp_all [engineLoadCache]
  · simp [loadIndex, loadDocsStep]

/-- Witness for C7's amended theorem: empty engine state, a snapshot with
zero entries but one vector (count mismatch), fresh rag state. -/
theorem index_load_failure_behavior_wit :
    (∀ fs : EngineFS,
        (fs.entriesFile = .missing ∨ fs.embeddingsFile = .missing
          ∨ fs.entriesFile = .corrupt ∨ fs.embeddingsFile = .corrupt) →
          (engineLoadCache ⟨[], none⟩ fs).2 = false)
    ∧ (engineLoadCache ⟨[], none⟩ ⟨.ok [], .ok [[1]]⟩).2 = true
    ∧ (loadIndex initState ⟨.missing, .missing, .missing⟩).2 = true :=
  index_load_failure_behavior ⟨[], none⟩ [] [[1]] initState

/-- C7 counterexample: `ArabicTafsirRAG.load_index` on a snapshot directory
with no files at all reports success (`True`) while having loaded nothing —
the claim requires a failure signal on missing files. -/
theorem loadIndex_missing_files_reports_success :
    (loadIndex initState ⟨.missing, .missing, .missing⟩).2 = true
    ∧ (loadIndex initState ⟨.missing, .missing, .missing⟩).1 = initState := by
  constructor
  · decide
  · decide

/-- C8 (the code, evaluated): `save_index` records the configured model
identifier in `metadata.json`, but `load_index` never reads that file back:
a snapshot saved under model `"v1"` loads successfully whatever model the
system is now configured with, its stored vectors are installed unchanged,
the startup policy triggers no rebuild, and replacing the metadata by one
declaring `"v2"` changes nothing about the load result. -/
theorem loadIndex_ignores_model_identifier :
    (saveIndex v1State "v1").metadataFile = .ok ⟨"v1", 1, some 2, ""⟩
    ∧ (loadIndex initState (saveIndex v1State "v1")).2 = true
    ∧ (loadIndex initState (saveIndex v1State "v1")).1.faiss_index = some [[1, 0]]
    ∧ rebuildNeeded initState (saveIndex v1State "v1") = false
    ∧ loadIndex initState
        { saveIndex v1State "v1" with metadataFile := .ok ⟨"v2", 1, some 2, ""⟩ }
        = loadIndex initState (saveIndex v1State "v1") := by
  refine ⟨?_, ?_, ?_, ?_, ?_⟩ <;> decide

/-! ## Corpus-loading lemmas and theorems (C9) -/

theorem docsOfJsonFile_malformed (authorName : String)
    (txtFiles : List (String × String))
    (jf : String × ParseOut (List (String × String)))
    (h : parseNatChars jf.1.data = none ∨ jf.2 = ParseOut.failed) :
    docsOfJsonFile authorName txtFiles jf = [] := by
  rcases h with h | h
  · simp [docsOfJsonFile, h]
  · cases htn : parseNatChars jf.1.data with
    | none => simp [docsOfJsonFile, htn]
    | some surah => simp [docsOfJsonFile, htn, h]

theorem docOfTxtFile_malformed (authorName : String) (surah : Nat)
    (meta : List (String × String)) (tf : String × String)
    (h : ((splitOnChar '_' tf.1.data)[1]?).bind parseNatChars = none) :
    docOfTxtFile authorName surah meta tf = none := by
  cases hq : (splitOnChar '_' tf.1.data)[1]? with
  | none => simp [docOfTxtFile, hq]
  | some part =>
    have hp : parseNatChars part = none := by
      simpa [hq] using h
    simp [docOfTxtFile, hq, hp]

/-- C9 (amended): in `ArabicTafsirRAG.load_author_data`, a metadata file with
a non-numeric stem or unparsable JSON is skipped — it contributes no
documents and the remaining files load exactly as without it; likewise a text
file whose ayah component is missing or non-numeric is skipped, leaving the
rest of the load unchanged.  (The code does not exclude empty-text files,
and `TafsirSearchEngine._build_index` aborts on a malformed entry; see the
counterexample.) -/
theorem load_skips_malformed_continues (name : String)
    (xs ys : List (String × ParseOut (List (String × String))))
    (txts : List (String × String))
    (bad : String × ParseOut (List (String × String)))
    (hbad : parseNatChars bad.1.data = none ∨ bad.2 = ParseOut.failed)
    (badT : String × String) (ts ts2 : List (String × String))
    (hbadT : ((splitOnChar '_' badT.1.data)[1]?).bind parseNatChars = none) :
    loadAuthorData ⟨name, xs ++ bad :: ys, txts⟩
        = loadAuthorData ⟨name, xs ++ ys, txts⟩
    ∧ loadAuthorData ⟨name, xs ++ ys, ts ++ badT :: ts2⟩
        = loadAuthorData ⟨name, xs ++ ys, ts ++ ts2⟩ := by
  constructor
  · simp only [loadAuthorData, List.map_append, List.map_cons,
      List.flatten_append, List.flatten_cons,
      docsOfJsonFile_malformed name txts bad hbad, List.nil_append]
  · have key : ∀ jf, docsOfJsonFile name (ts ++ badT :: ts2) jf
        = docsOfJsonFile name (ts ++ ts2) jf := by
      intro jf
      cases htn : parseNatChars jf.1.data with
      | none => simp [docsOfJsonFile, htn]
      | some surah =>
        cases hp : jf.2 with
        | failed => simp [docsOfJsonFile, htn, hp]
        | ok meta =>
          simp only [docsOfJsonFile, htn, hp]
          rw [List.filter_append, List.filter_append, List.filter_cons]
          by_cases hst : globMatch surah badT.1
          · simp only [hst, if_true]
            rw [List.filterMap_append, List.filterMap_append,
              List.filterMap_cons,
              docOfTxtFile_malformed name surah meta badT hbadT]
          · simp only [hst, Bool.false_eq_true, if_false]
    simp only [loadAuthorData]
    congr 1
    exact List.map_congr_left (fun jf _ => key jf)

/-- Witness for C9's amended theorem at a concrete directory: the malformed
metadata file has stem `"x"`, the malformed text file `"1_z"`. -/
theorem load_skips_malformed_continues_wit :
    (parseNatChars ("x" : String).data = none ∨
        (ParseOut.ok ([] : List (String × String))) = ParseOut.failed)
    ∧ ((splitOnChar '_' ("1_z" : String).data)[1]?).bind parseNatChars = none
    ∧ (loadAuthorData ⟨"a", [("1", ParseOut.ok [])] ++ ("x", ParseOut.ok []) :: [],
          [("1_1", "hello")]⟩
        = loadAuthorData ⟨"a", [("1", ParseOut.ok [])] ++ [], [("1_1", "hello")]⟩
      ∧ loadAuthorData ⟨"a", [("1", ParseOut.ok [])] ++ [],
          [("1_1", "hello")] ++ ("1_z", "t") :: []⟩
        = loadAuthorData ⟨"a", [("1", ParseOut.ok [])] ++ [],
            [("1_1", "hello")] ++ []⟩) :=
  ⟨by decide, by decide,
   load_skips_malformed_continues "a" [("1", ParseOut.ok [])] []
     [("1_1", "hello")] ("x", ParseOut.ok []) (by decide) ("1_z", "t")
     [("1_1", "hello")] [] (by decide)⟩

/-- C9 counterexample: `TafsirSearchEngine._build_index` aborts the whole
load when an entry lacks `tafsir_text` (the well-formed entries before and
after it are lost), and `ArabicTafsirRAG.load_author_data` stores a document
with empty text instead of excluding it. -/
theorem malformed_handling_divergence :
    buildEntries [⟨some "t", some "a", some 1, some [1, 1], none, none, none⟩,
        ⟨none, some "a", some 1, some [1, 1], none, none, none⟩,
        ⟨some "t2", some "a", some 1, some [1, 1], none, none, none⟩] = none
    ∧ (loadAuthorData ⟨"x", [("2", ParseOut.ok [])], [("2_3", "")]⟩).map
        (fun d => d.text) = [""] := by
  constructor
  · decide
  · decide
